import Mathlib

/-!
Verification of the Ren-C value/extension layer against its specification.

Shallow embedding of:
* the quoting subsystem of %sys-quoted.h (Quotify_Core / Unquotify_Core),
* context equality and the APPEND verb of %t-object.c,
* the GOB hit-testing natives of %mod-gob.c,
* the crypt extension natives of %mod-crypt.c (checksum, aes-key, aes-stream),
* the PNG identify native of %mod-lodepng.c.

Machine integers are modelled as Nat/Int; heap side-arrays are modelled as an
explicit list-indexed store; native routines that can raise return Except or
Option.  Vendored library primitives (block ciphers, digests, CRCs, the PNG
codec) are parameters of the embedding or are modelled from the spec, as
documented at each definition.
-/

namespace Quoting

/-- The kind-byte threshold `REB_64` of %sys-quoted.h: kind bytes are read as
`base kind + 64 * quote depth`. -/
def REB64 : Nat := 64

/-- Numbering data for the kind enumeration.  The generated kinds table
(%tmp-kinds.h) is not among the sources, so the numeric values of `REB_QUOTED`
and `REB_MAX`, and the `Is_Bindable` predicate on base kinds (bindable types
are ordered first in the enumeration; for non-bindable inner types the outer
binding is forced absent, per the spec's quoting section), are kept as a
parameter pack constrained exactly as the code requires. -/
structure KindSig where
  quoted : Nat
  max : Nat
  bindable : Nat → Bool

/-- Well-formedness of a kind numbering: `REB_QUOTED` is a real, nonzero kind
below `REB_MAX`, and all real kinds fit under the 64 threshold. -/
abbrev WfSig (sig : KindSig) : Prop :=
  0 < sig.quoted ∧ sig.quoted < sig.max ∧ sig.max ≤ REB64

/-- A cell payload: either the two generic payload words of a non-quoted cell,
or the `PAYLOAD(Quoted, ...)` form holding a reference to a one-cell side
array (an index into the store) plus an explicit depth. -/
inductive Payload where
  | plain (p1 p2 : Nat)
  | quotedPay (cellIdx : Nat) (depth : Nat)
deriving DecidableEq

/-- A value cell: header kind byte (`KIND_BYTE`), the `extra` slot (one raw
word; `0` encodes the null binding written by `EXTRA(Binding, v).node =
nullptr`), and the payload.  Header flag bits besides the kind byte are not
touched by the quoting routines' observable contract and are not modelled. -/
structure Cell where
  kind : Nat
  extra : Nat
  payload : Payload
deriving DecidableEq

/-- The store of allocated one-cell side arrays ("singulars"); `Alloc_Singular`
appends a fresh cell and its index is the array's identity. -/
abbrev Heap := List Cell

/-- `Quotify_Core(v, depth)` of %sys-quoted.h.  Returns `none` exactly when a
debug-build assert would fail (a `REB_QUOTED` cell whose stored depth is not
`> 3`).  On an already-deep cell it bumps the stored depth in place; otherwise
it recomputes the total depth and either re-encodes it in the kind byte
(total ≤ 3) or allocates a singular holding the original kind/extra/payload,
rewriting the outer cell to `REB_QUOTED` with the binding synced for bindable
inner kinds and forced null otherwise. -/
def Quotify_Core (sig : KindSig) (heap : Heap) (v : Cell) (depth : Nat) :
    Option (Heap × Cell) :=
  if v.kind = sig.quoted then
    match v.payload with
    | .quotedPay idx d =>
        if 3 < d then
          some (heap, { v with payload := .quotedPay idx (d + depth) })
        else
          none
    | .plain _ _ => none
  else
    let kind := v.kind % REB64
    let total := depth + v.kind / REB64
    if total ≤ 3 then
      some (heap, { v with kind := kind + REB64 * total })
    else
      let cell : Cell := { kind := kind, extra := v.extra, payload := v.payload }
      some (heap ++ [cell],
        { kind := sig.quoted,
          extra := if sig.bindable kind then cell.extra else 0,
          payload := .quotedPay heap.length total })

/-- `Unquotify_In_Situ(v, unquotes)` of %sys-quoted.h: subtracts
`64 * unquotes` from the kind byte.  `none` when one of its asserts would
fail (kind byte below 64, too many unquotes, or a bad resulting base kind). -/
def Unquotify_In_Situ (sig : KindSig) (v : Cell) (unquotes : Nat) :
    Option Cell :=
  if REB64 ≤ v.kind ∧ unquotes ≤ v.kind / REB64 then
    let k := v.kind - REB64 * unquotes
    if k % REB64 ≠ 0 ∧ k % REB64 ≠ sig.quoted ∧ k % REB64 < sig.max then
      some { v with kind := k }
    else
      none
  else
    none

/-- `Unquotify_Core(v, unquotes)` of %sys-quoted.h.  For a deep (`REB_QUOTED`)
cell it re-reads the singular; when the remaining depth drops to ≤ 3 it
collapses the indirection: `Move_Value_Header` copies the header word and the
payload is copied, while the outer cell's `extra` slot is left as it is (the
debug assert only checks that for a bindable inner kind the two bindings are
in sync; `Move_Value_Header`, which is not among the sources, copies only the
header — in `Dequotify` the code follows it with an explicit
`v->extra = cell->extra`, which would be redundant otherwise).  `none` exactly
when an assert would fail or the singular reference dangles. -/
def Unquotify_Core (sig : KindSig) (heap : Heap) (v : Cell) (unquotes : Nat) :
    Option Cell :=
  if unquotes = 0 then
    some v
  else if v.kind ≠ sig.quoted then
    Unquotify_In_Situ sig v unquotes
  else
    match v.payload with
    | .plain _ _ => none
    | .quotedPay idx d =>
        if 3 < d ∧ unquotes ≤ d then
          let depth := d - unquotes
          match heap[idx]? with
          | none => none
          | some cell =>
              if cell.kind ≠ 0 ∧ cell.kind ≠ sig.quoted ∧ cell.kind < sig.max then
                if 3 < depth then
                  some { v with payload := .quotedPay idx depth }
                else
                  if sig.bindable cell.kind = false ∨ v.extra = cell.extra then
                    some { kind := cell.kind + REB64 * depth,
                           extra := v.extra,
                           payload := cell.payload }
                  else
                    none
              else
                none
        else
          none

/-- Quote by `d` then unquote by `d`, threading the side-array store. -/
def roundTrip (sig : KindSig) (heap : Heap) (v : Cell) (d : Nat) :
    Option Cell :=
  match Quotify_Core sig heap v d with
  | none => none
  | some (heap1, v1) => Unquotify_Core sig heap1 v1 d

/-- Well-formedness of a cell relative to a store, matching the invariants the
code asserts: a non-quoted cell has a plain payload, a kind byte under 256
whose base is a real kind other than `REB_0` and `REB_QUOTED`; a deep cell has
the `REB_QUOTED` kind, stored depth > 3, and references a live singular whose
kind is a real base kind. -/
def wfCell (sig : KindSig) (heap : Heap) (v : Cell) : Bool :=
  match v.payload with
  | .plain _ _ =>
      decide (v.kind % REB64 ≠ 0) && decide (v.kind % REB64 ≠ sig.quoted) &&
      decide (v.kind % REB64 < sig.max) && decide (v.kind < 256)
  | .quotedPay idx d =>
      decide (v.kind = sig.quoted) && decide (3 < d) &&
      match heap[idx]? with
      | none => false
      | some cell =>
          decide (cell.kind ≠ 0) && decide (cell.kind ≠ sig.quoted) &&
          decide (cell.kind < sig.max)

/-- A concrete kind numbering consistent with the code's constraints, used for
concrete evaluations: `REB_QUOTED = 52`, `REB_MAX = 53`, with the bindable
types occupying the low positions of the enumeration. -/
def demoSig : KindSig :=
  { quoted := 52, max := 53, bindable := fun k => decide (0 < k ∧ k < 10) }

/-- A date-like cell: a non-bindable base kind (40) whose `extra` slot carries
meaningful bits (packed date fields, per the spec's extra-slot menu). -/
def dateCell : Cell := { kind := 40, extra := 7, payload := .plain 1 2 }

end Quoting

namespace Ctx

/-- A value held in a context variable slot, as far as the claims need to
distinguish them: the absent value (NULLED), BLANK!, VOID!, words and
set-words (by canonical spelling number), and integers. -/
inductive Val where
  | vnull
  | vblank
  | vvoid
  | vword (c : Nat)
  | vsetword (c : Nat)
  | vint (n : Int)
deriving DecidableEq

/-- A key/variable pair of a context: the key's canonical spelling
(`VAL_KEY_CANON`, already case-folded), its hidden role flag
(`Is_Param_Hidden`), the variable cell's PROTECTED flag, and the variable's
value.  The key accessors live in headers not among the sources; the fields
follow the spec's keylist entry {name, role-flags}. -/
structure Slot where
  canon : Nat
  hidden : Bool
  prot : Bool
  val : Val
deriving DecidableEq

/-- A context value: the cell sub-kind (`CELL_KIND`: object/module/error/...),
the identity of the backing varlist (`VAL_CONTEXT` pointer), and the parallel
key/variable sequence. -/
structure Context where
  kind : Nat
  id : Nat
  slots : List Slot
deriving DecidableEq

/-- Model numbering for the context sub-kinds (only distinctness is used). -/
def REB_OBJECT : Nat := 45
/-- Model numbering for the module sub-kind. -/
def REB_MODULE : Nat := 46
/-- Model numbering for the error sub-kind. -/
def REB_ERROR : Nat := 47

/-- The key/value walk of `Equal_Context` in %t-object.c: advance both sides
in parallel; a hidden key is skipped on whichever side has it (the
`no_advance` loop); visible keys must agree on canonical name and the values
must compare equal under `Cmp_Value` (`cmp`, the case-insensitive generic
comparator, a parameter here since it lives elsewhere in the runtime); when
one side ends, every remaining slot on the other side must be hidden. -/
def eqLoop (cmp : Val → Val → Int) : List Slot → List Slot → Bool
  | [], l2 => l2.all (fun s => s.hidden)
  | l1, [] => l1.all (fun s => s.hidden)
  | s1 :: t1, s2 :: t2 =>
      if s1.hidden then eqLoop cmp t1 (s2 :: t2)
      else if s2.hidden then eqLoop cmp (s1 :: t1) t2
      else if s1.canon ≠ s2.canon then false
      else if cmp s1.val s2.val ≠ 0 then false
      else eqLoop cmp t1 t2
  termination_by l1 l2 => l1.length + l2.length

/-- `Equal_Context` of %t-object.c: different sub-kinds are never equal, the
same backing varlist is trivially equal, otherwise the parallel walk. -/
def Equal_Context (cmp : Val → Val → Int) (c1 c2 : Context) : Bool :=
  if c1.kind ≠ c2.kind then false
  else if c1.id = c2.id then true
  else eqLoop cmp c1.slots c2.slots

/-- `CT_Context` of %t-object.c. -/
def CT_Context (cmp : Val → Val → Int) (a b : Context) (mode : Int) : Int :=
  if mode < 0 then -1
  else if Equal_Context cmp a b then 1 else 0

/-- A concrete instance of the `Cmp_Value` parameter on the modelled values
(0 means equal); words compare case-insensitively by canon, which the model
spellings already are. -/
def cmpVal : Val → Val → Int
  | .vnull, .vnull => 0
  | .vblank, .vblank => 0
  | .vvoid, .vvoid => 0
  | .vword a, .vword b => (a : Int) - b
  | .vsetword a, .vsetword b => (a : Int) - b
  | .vint a, .vint b => a - b
  | _, _ => 1

/-- The visible (non-hidden) slots of a key/variable sequence. -/
def visibles (l : List Slot) : List Slot :=
  l.filter (fun s => !s.hidden)

/-- `make object! [a: 1 b: 2]` with the hidden `self` slot at index 0
(canons: self = 0, a = 1, b = 2). -/
def objAB : Context :=
  { kind := REB_OBJECT, id := 1,
    slots := [⟨0, true, false, .vint 0⟩,
              ⟨1, false, false, .vint 1⟩,
              ⟨2, false, false, .vint 2⟩] }

/-- `make object! [b: 1 a: 2]`, the same pairs assigned in the other order. -/
def objBA : Context :=
  { kind := REB_OBJECT, id := 2,
    slots := [⟨0, true, false, .vint 0⟩,
              ⟨2, false, false, .vint 1⟩,
              ⟨1, false, false, .vint 2⟩] }

/-- The argument of the APPEND verb on a context, as the dispatch
distinguishes it: the absent value, BLANK!, ANY-WORD! (by canon/spelling,
taken equal after case folding), a BLOCK! of cells, or anything else. -/
inductive AppendArg where
  | nullish
  | blank
  | word (c : Nat)
  | block (items : List Val)
  | other
deriving DecidableEq

/-- Errors the context APPEND path can raise. -/
inductive CtxErr where
  | readOnly
  | illegalAction
  | badValue
  | protectedKey
  | hiddenKey
  | badArg
deriving DecidableEq

/-- First index of a canon among the slots (the binder/`Find_Canon_In_Context`
lookup; spelling comparison is by canonical, case-folded symbol). -/
def findCanon (slots : List Slot) (c : Nat) : Option Nat :=
  slots.findIdx? (fun s => s.canon = c)

/-- The even-position scan of `Append_To_Context`'s block case: each
word-position cell must be a word or set-word (else `Error_Bad_Value_Core`);
canons not already known (in the context or collected earlier in this call)
are collected in order; a trailing word with no value cell stops the scan
(the bug#708 fix). -/
def collectNew (slots : List Slot) : List Val → List Nat → Except CtxErr (List Nat)
  | [], acc => .ok acc
  | item :: rest, acc =>
      match item with
      | .vword c | .vsetword c =>
          let acc' :=
            if (findCanon slots c).isSome ∨ c ∈ acc then acc else acc ++ [c]
          match rest with
          | [] => .ok acc'             -- IS_END(word + 1): break
          | _ :: rest' => collectNew slots rest' acc'
      | _ => .error .badValue

/-- A fresh slot appended for a newly collected key (`Append_Context` default:
the variable starts out void). -/
def freshSlot (c : Nat) : Slot := ⟨c, false, false, .vvoid⟩

/-- The value-writing pass of `Append_To_Context`'s block case: each
word-position canon is resolved to its slot; writing to a PROTECTED variable
fails, writing to a hidden key fails; a trailing word with no value sets its
slot to BLANK!. -/
def setVals (slots : List Slot) : List Val → Except CtxErr (List Slot)
  | [] => .ok slots
  | item :: rest =>
      match item with
      | .vword c | .vsetword c =>
          match findCanon slots c with
          | none => .error .badArg     -- assert(i != 0): unreachable after collect
          | some i =>
              match slots[i]? with
              | none => .error .badArg
              | some s =>
                  if s.prot then .error .protectedKey
                  else if s.hidden then .error .hiddenKey
                  else
                    match rest with
                    | [] => .ok (slots.set i { s with val := .vblank })
                    | v :: rest' =>
                        setVals (slots.set i { s with val := v }) rest'
      | _ => .error .badValue
  termination_by l => l.length

/-- `Append_To_Context` of %t-object.c: an ANY-WORD! argument is a no-op if
its canon is already present (hidden included, `always = true`) and otherwise
appends one void-valued key; a non-BLOCK! otherwise fails; a BLOCK! collects
the new keys of its even positions, grows the context once, then writes the
supplied values. -/
def Append_To_Context (slots : List Slot) (arg : AppendArg) :
    Except CtxErr (List Slot) :=
  match arg with
  | .word c =>
      if (findCanon slots c).isSome then .ok slots
      else .ok (slots ++ [freshSlot c])
  | .block items =>
      match collectNew slots items [] with
      | .error e => .error e
      | .ok newCanons => setVals (slots ++ newCanons.map freshSlot) items
  | _ => .error .badArg

/-- The `SYM_APPEND` arm of `REBTYPE(Context)` in %t-object.c: an absent or
BLANK! argument returns the context unchanged before the read-only check
(`FAIL_IF_READ_ONLY_CONTEXT`, whose read-only bit lives on the varlist series
outside the sources and is modelled as the `readonly` flag per the spec);
then the value must be an OBJECT! or MODULE! or the action is illegal;
otherwise the extension runs. -/
def ctxAppendAction (readonly : Bool) (value : Context) (arg : AppendArg) :
    Except CtxErr Context :=
  if arg = .nullish ∨ arg = .blank then .ok value
  else if readonly then .error .readOnly
  else if ¬(value.kind = REB_OBJECT ∨ value.kind = REB_MODULE) then
    .error .illegalAction
  else
    match Append_To_Context value.slots arg with
    | .error e => .error e
    | .ok slots' => .ok { value with slots := slots' }

end Ctx

namespace GobExt

/-- A GOB node as the hit-testing natives observe it: the offset and size
pairs of the `IDX_GOB_OFFSET_AND_FLAGS` / `IDX_GOB_SIZE_AND_ALPHA` slots and
the child pane (`GOB_PANE`: blank pane is `none`, a block is the ordered
child list).  The `REBD32` float coordinates are modelled as exact integers
(the traversal only adds, subtracts and compares them). -/
inductive Gob where
  | mk (offset size : Int × Int) (pane : Option (List Gob))

/-- The gob's offset (`GOB_X`/`GOB_Y`). -/
def Gob.offset : Gob → Int × Int
  | .mk o _ _ => o

/-- The gob's size (`GOB_W`/`GOB_H`). -/
def Gob.size : Gob → Int × Int
  | .mk _ s _ => s

/-- The gob's child pane (`GOB_PANE`). -/
def Gob.pane : Gob → Option (List Gob)
  | .mk _ _ p => p

/-- The containment test of `Map_Gob_Inner`'s inner loop, phrased on the
current local point `p` (the original point minus the accumulated offsets):
`offset ≤ p < offset + size` on both axes. -/
def inBox (p : Int × Int) (g : Gob) : Bool :=
  decide (g.offset.1 ≤ p.1) && decide (p.1 < g.offset.1 + g.size.1) &&
  decide (g.offset.2 ≤ p.2) && decide (p.2 < g.offset.2 + g.size.2)

/-- The back-to-front scan: `Map_Gob_Inner` starts at `GOB_HEAD + len - 1`
and walks down, so the first hit in the reversed child list wins. -/
def findChildRev (p : Int × Int) (children : List Gob) : Option Gob :=
  children.reverse.find? (fun c => inBox p c)

/-- `Map_Gob_Inner` of %mod-gob.c with its step guard as fuel (the native
starts it at `max_depth = 1000`): while a pane exists and the guard is not
exhausted, find the first child (in back-to-front order) containing the
current point; descend into it, subtracting its offset; stop when no pane
exists, no child matches, or the guard runs out, returning the reached gob
and the residual local point. -/
def Map_Gob_Inner : Nat → Gob → Int × Int → Gob × (Int × Int)
  | 0, g, p => (g, p)
  | fuel + 1, g, p =>
      match g.pane with
      | none => (g, p)
      | some children =>
          match findChildRev p children with
          | none => (g, p)
          | some c => Map_Gob_Inner fuel c (p.1 - c.offset.1, p.2 - c.offset.2)

/-- One descent step of the hit-testing algorithm, as the spec describes it:
the first child (scanning back-to-front) whose bounding box contains the
point, together with the point re-expressed in that child's local
coordinates; `none` when there is no pane or no child matches. -/
def descend (g : Gob) (p : Int × Int) : Option (Gob × (Int × Int)) :=
  match g.pane with
  | none => none
  | some children =>
      match findChildRev p children with
      | none => none
      | some c => some (c, (p.1 - c.offset.1, p.2 - c.offset.2))

/-- `k`-fold iteration of the descent step (failing if any step fails). -/
def descendIter : Nat → Gob × (Int × Int) → Option (Gob × (Int × Int))
  | 0, s => some s
  | k + 1, s =>
      match descend s.1 s.2 with
      | none => none
      | some t => descendIter k t

/-- The forward path of `REBNATIVE(map_gob_offset)` (the refinement for the
reverse walk not used): the traversal with the native's 1000-step guard. -/
def map_gob_offset_forward (g : Gob) (xy : Int × Int) : Gob × (Int × Int) :=
  Map_Gob_Inner 1000 g xy

/-- A unit-box chain of the given depth, each node containing exactly one
child at offset (0,0): a pane chain deeper than the guard. -/
def chainGob : Nat → Gob
  | 0 => .mk (0, 0) (1, 1) none
  | n + 1 => .mk (0, 0) (1, 1) (some [chainGob n])

/-- First child of the two-children example: offset (1,3), size (2,3). -/
def kid1 : Gob := .mk (1, 3) (2, 3) none

/-- Second child of the two-children example: offset (5,0), size (2,2). -/
def kid2 : Gob := .mk (5, 0) (2, 2) none

/-- A parent with two non-overlapping children. -/
def twoKids : Gob := .mk (0, 0) (10, 10) (some [kid1, kid2])

/-- `ROUND_TO_INT` on an event coordinate; the model's coordinates are exact
integers already, so rounding is the identity. -/
def ROUND_TO_INT (x : Int) : Int := x

/-- An event as `REBNATIVE(map_event)` observes it: the optional gob
reference (`VAL_EVENT_SER`), the `EVF_HAS_XY` flag, and the position words. -/
structure Event where
  gob : Option Gob
  hasXY : Bool
  x : Int
  y : Int

/-- `REBNATIVE(map_event)` of %mod-gob.c: with a gob and the position flag,
re-resolve through `Map_Gob_Inner` (guard 1000) and write the result back —
the source writes `SET_EVENT_XY(val, ROUND_TO_INT(x), ROUND_TO_INT(x))`,
storing the resolved X into both coordinate fields; otherwise the event is
returned unchanged. -/
def map_event (e : Event) : Event :=
  match e.gob with
  | none => e
  | some g =>
      if e.hasXY then
        let r := Map_Gob_Inner 1000 g (e.x, e.y)
        { gob := some r.1, hasXY := e.hasXY,
          x := ROUND_TO_INT r.2.1, y := ROUND_TO_INT r.2.1 }
      else e

end GobExt

namespace Crypt

/-- The method words CHECKSUM distinguishes: the two table digests, the two
CRC special cases, any other word with a symbol number (falls through the
digest table and fails), and a word with no symbol number at all (`SYM_0`,
fails immediately). -/
inductive Sym where
  | sha1
  | md5
  | crc32
  | adler32
  | unknown
  | sym0
deriving DecidableEq

/-- The routines the crypt natives call into that live in the runtime core or
in vendored libraries (not among the sources): CRC-24, the TCP internet
checksum, the non-cryptographic byte hash, zlib's CRC-32 and Adler-32, and
the all-at-once SHA-1/MD5 digests (the incremental init/update/final calls
the HMAC path makes are equivalent to digesting the concatenation). -/
structure Prims where
  crc24 : List Nat → Int
  ipc : List Nat → Int
  hashBytes : List Nat → Nat
  crc32 : List Nat → Nat
  adler32 : List Nat → Nat
  sha1 : List Nat → List Nat
  md5 : List Nat → List Nat

/-- A CHECKSUM result: an INTEGER! or a BINARY!. -/
inductive CkResult where
  | int (i : Int)
  | bin (b : List Nat)

/-- Failures of the crypt natives modelled here. -/
inductive CryptErr where
  | invalidMethod
  | badRefines
  | ivShort
  | badKeyLen (bits : Nat)

/-- Reinterpret an unsigned 32-bit value as a signed `int32_t`, as the CRC-32
branch's `cast(int32_t, crc32_z(...))` does. -/
def toInt32 (n : Nat) : Int :=
  let m : Nat := n % 2 ^ 32
  if m < 2 ^ 31 then (m : Int) else (m : Int) - 2 ^ 32

/-- `memset(buf, 0, n); memcpy(buf, l, l.length)`: the key zero-padded to the
HMAC block size. -/
def padTo (l : List Nat) (n : Nat) : List Nat :=
  (l ++ List.replicate (n - l.length) 0).take n

/-- One row of the `digests[]` table: the all-at-once digest routine, the
output length and the HMAC block size. -/
structure DigestSpec where
  digest : List Nat → List Nat
  len : Nat
  hmacblock : Nat

/-- The HMAC computation of `REBNATIVE(checksum)`: a key longer than the
block size is first hashed down (`key_size` becomes the digest length);
the inner and outer pads are the zero-padded key XORed with 0x36 and 0x5C;
the result is digest(opad ++ digest(ipad ++ message)). -/
def hmacDigest (dg : DigestSpec) (key data : List Nat) : List Nat :=
  let blocklen := dg.hmacblock
  let keyBytes := if blocklen < key.length then (dg.digest key).take dg.len
                  else key
  let ipad := (padTo keyBytes blocklen).map (fun b => b.xor 0x36)
  let opad := (padTo keyBytes blocklen).map (fun b => b.xor 0x5c)
  dg.digest (opad ++ dg.digest (ipad ++ data))

/-- The digest-table body: plain digest without `/key`, HMAC with it; the
result series is terminated at the table's output length. -/
def digestResult (dg : DigestSpec) (key : Option (List Nat)) (data : List Nat) :
    List Nat :=
  match key with
  | none => (dg.digest data).take dg.len
  | some k => (hmacDigest dg k data).take dg.len

/-- The SHA1 row of the `digests[]` table. -/
def sha1Spec (P : Prims) : DigestSpec := ⟨P.sha1, 20, 64⟩

/-- The MD5 row of the `digests[]` table. -/
def md5Spec (P : Prims) : DigestSpec := ⟨P.md5, 16, 64⟩

/-- `REBNATIVE(checksum)` of %mod-crypt.c.  `/part` truncation
(`Part_Len_May_Modify_Index`, not among the sources) is modelled as taking
the prefix.  A `/method` word without a symbol fails; the digest/HMAC branch
runs when any of `/method`, `/secure`, `/key` is given (method defaulting to
SHA1), with CRC32 and ADLER32 as integer special cases that refuse `/secure`
and `/key`; otherwise `/tcp` selects the internet checksum, `/hash` the
bounded byte hash (floored at 1), and the default with none of these
refinements is `Compute_CRC24`. -/
def checksum (P : Prims) (data0 : List Nat) (part : Option Nat)
    (tcp secure : Bool) (hash : Option Int) (method : Option Sym)
    (key : Option (List Nat)) : Except CryptErr CkResult :=
  let data := match part with
    | some n => data0.take n
    | none => data0
  match method with
  | some .sym0 => .error .invalidMethod
  | _ =>
      let sym := match method with
        | some s => s
        | none => Sym.sha1
      if method.isSome || secure || key.isSome then
        if sym = .crc32 then
          if secure || key.isSome then .error .badRefines
          else .ok (.int (toInt32 (P.crc32 data)))
        else if sym = .adler32 then
          if secure || key.isSome then .error .badRefines
          else .ok (.int ((P.adler32 data : Int)))
        else if sym = .sha1 then
          .ok (.bin (digestResult (sha1Spec P) key data))
        else if sym = .md5 then
          .ok (.bin (digestResult (md5Spec P) key data))
        else .error .invalidMethod
      else if tcp then .ok (.int (P.ipc data))
      else
        match hash with
        | some h =>
            let sum : Int := if h ≤ 1 then 1 else h
            .ok (.int (Int.ofNat (P.hashBytes data) % sum))
        | none => .ok (.int (P.crc24 data))

/-- A 16-byte AES block. -/
abbrev Block := Fin 16 → Nat

/-- `AES_IV_SIZE` of the vendored AES header. -/
def AES_IV_SIZE : Nat := 16

/-- `AES_BLOCKSIZE` of the vendored AES header. -/
def AES_BLOCKSIZE : Nat := 16

/-- The AES context handle that `aes-key` builds: the key material, the
16-byte initialization vector, and whether `AES_convert_key` switched it to
decryption mode (`key_mode == AES_MODE_DECRYPT`). -/
structure AES_CTX where
  key : List Nat
  iv : Block
  decrypt : Bool

/-- The `iv` argument of `aes-key`: a BINARY! or BLANK!. -/
inductive IvArg where
  | binary (b : List Nat)
  | blank

/-- A block read from a byte list (missing bytes read as zero). -/
def blockOfList (l : List Nat) : Block := fun i => l.getD i.val 0

/-- The tail of `REBNATIVE(aes_key)` after the IV is prepared: the key length
in bits (`VAL_LEN_AT(ARG(key)) << 3`) must be exactly 128 or 256, else the
native fails naming the offending length; then the context is built. -/
def aes_key_core (key : List Nat) (iv16 : Block) (decrypt : Bool) :
    Except CryptErr AES_CTX :=
  let len := key.length * 8
  if len ≠ 128 ∧ len ≠ 256 then .error (.badKeyLen len)
  else .ok { key := key, iv := iv16, decrypt := decrypt }

/-- `REBNATIVE(aes_key)` of %mod-crypt.c: a BINARY! IV shorter than
`AES_IV_SIZE` fails; otherwise only its first 16 bytes are copied
(`memcpy(iv, VAL_BIN_AT(ARG(iv)), AES_IV_SIZE)`); a BLANK! IV is replaced by
16 zero bytes; then the key length check runs. -/
def aes_key (key : List Nat) (iv : IvArg) (decrypt : Bool) :
    Except CryptErr AES_CTX :=
  match iv with
  | .binary b =>
      if b.length < AES_IV_SIZE then .error .ivShort
      else aes_key_core key (blockOfList (b.take AES_IV_SIZE)) decrypt
  | .blank =>
      aes_key_core key (blockOfList (List.replicate AES_IV_SIZE 0)) decrypt

/-- Pointwise XOR of two blocks. -/
def xorBlock (a b : Block) : Block := fun i => Nat.xor (a i) (b i)

/-- CBC encryption over the vendored block cipher `E` (modelled from the
spec's CBC description: each plaintext block is XORed with the previous
ciphertext block — the IV first — before the block cipher). -/
def cbcEncrypt (E : Block → Block) : Block → List Block → List Block
  | _, [] => []
  | prev, b :: rest =>
      let c := E (xorBlock prev b)
      c :: cbcEncrypt E c rest

/-- CBC decryption over the vendored inverse block cipher `D` (modelled from
the spec's CBC description). -/
def cbcDecrypt (D : Block → Block) : Block → List Block → List Block
  | _, [] => []
  | prev, b :: rest => xorBlock prev (D b) :: cbcDecrypt D b rest

/-- Split a byte buffer (whose length is a multiple of 16 when used) into
16-byte blocks. -/
def chunkBlocks (data : List Nat) : List Block :=
  (List.range (data.length / 16)).map
    (fun bi => blockOfList ((data.drop (16 * bi)).take 16))

/-- Serialize blocks back to bytes. -/
def flattenBlocks : List Block → List Nat
  | [] => []
  | b :: rest => (List.finRange 16).map b ++ flattenBlocks rest

/-- `REBINT pad_len = (((len - 1) >> 4) << 4) + AES_BLOCKSIZE` of
`REBNATIVE(aes_stream)`. -/
def padLenOf (len : Nat) : Nat := ((len - 1) / 16) * 16 + AES_BLOCKSIZE

/-- `REBNATIVE(aes_stream)` of %mod-crypt.c: zero-length data returns the
absent value (`nullptr`), not an empty binary; otherwise the input is
zero-padded up to `pad_len` (a temporary padded copy is made only when
`len < pad_len`), run through CBC encryption or decryption per the handle's
mode (block primitives `E`/`D` are the vendored cipher), and the `pad_len`
bytes of output are repossessed as the result binary. -/
def aes_stream (E D : Block → Block) (ctx : AES_CTX) (data : List Nat) :
    Option (List Nat) :=
  let len := data.length
  if len = 0 then none
  else
    let pad_len := padLenOf len
    let buffer := if len < pad_len
      then data ++ List.replicate (pad_len - len) 0
      else data
    let blocks := chunkBlocks buffer
    let out := if ctx.decrypt then cbcDecrypt D ctx.iv blocks
               else cbcEncrypt E ctx.iv blocks
    some (flattenBlocks out)

end Crypt

namespace Png

/-- A runtime failure (never produced by `identify-png?`). -/
inductive RebErr where
  | failure

/-- The eight-byte PNG file signature. -/
def pngSignature : List Nat := [137, 80, 78, 71, 13, 10, 26, 10]

/-- Big-endian 32-bit read at an offset. -/
def be32 (l : List Nat) (i : Nat) : Nat :=
  ((l.getD i 0 * 256 + l.getD (i + 1) 0) * 256 + l.getD (i + 2) 0) * 256 +
    l.getD (i + 3) 0

/-- Modelled from the spec: `lodepng_inspect`, the vendored codec's
header/metadata parse (the codec is outside the given sources; the spec pins
only "accepted as input iff the codec's header inspection succeeds", true for
a well-formed PNG header buffer and false for an empty or random buffer).
The model requires the 8-byte signature followed by a complete 25-byte IHDR
chunk (33 bytes total, chunk type `IHDR` at offset 12) and reads the
big-endian width and height. -/
def lodepng_inspect (data : List Nat) : Option (Nat × Nat) :=
  if data.length < 33 then none
  else if data.take 8 ≠ pngSignature then none
  else if (data.drop 12).take 4 ≠ [73, 72, 68, 82] then none
  else some (be32 data 16, be32 data 20)

/-- `REBNATIVE(identify_png_q)` of %mod-lodepng.c, parameterized by the
codec's inspect routine: a nonzero codec error yields `R_FALSE`, success
yields `R_TRUE`; no path raises. -/
def identify_png_q (inspect : List Nat → Option (Nat × Nat))
    (data : List Nat) : Except RebErr Bool :=
  match inspect data with
  | none => .ok false
  | some _ => .ok true

/-- A minimal well-formed PNG header buffer: signature, IHDR length 13,
`IHDR`, a 1×1 8-bit RGBA header. -/
def pngDemo : List Nat :=
  pngSignature ++
    [0, 0, 0, 13, 73, 72, 68, 82,
     0, 0, 0, 1, 0, 0, 0, 1, 8, 6, 0, 0, 0, 0, 0, 0, 0]

end Png

namespace Quoting

/-- Claim C1: evaluation of the quote/unquote round trip at a depth-4 quote of
a non-bindable cell whose `extra` slot is meaningful.  `Quotify_Core` moves
kind/extra/payload into the side array and nulls the outer binding (the base
kind 40 is not bindable); `Unquotify_Core` collapses the indirection copying
back only the header and payload, so the unquoted cell's `extra` is the null
binding `0`, not the original `7`: the round trip loses the extra slot. -/
theorem quote_roundtrip_drops_extra :
    roundTrip demoSig [] dateCell 4
        = some { kind := 40, extra := 0, payload := .plain 1 2 }
      ∧ dateCell.extra = 7
      ∧ wfCell demoSig [] dateCell = true := by
  decide

/-- Claim C2: the quote allocation boundary of `Quotify_Core`.  For a
well-formed non-quoted cell, a resulting total depth ≤ 3 is encoded purely in
the kind byte (base + 64 × depth) with the store untouched; a total depth > 3
allocates exactly one fresh singular holding the original base kind, extra and
payload; and quoting a cell already in side-array form only bumps the stored
depth in place, keeping the same singular index and allocating nothing. -/
theorem Quotify_allocation_boundary (sig : KindSig) (heap : Heap) (v : Cell)
    (d : Nat) (hsig : WfSig sig) (hv : wfCell sig heap v = true) :
    (∀ p1 p2, v.payload = .plain p1 p2 → d + v.kind / REB64 ≤ 3 →
      Quotify_Core sig heap v d
        = some (heap,
            { v with kind := v.kind % REB64 + REB64 * (d + v.kind / REB64) })) ∧
    (∀ p1 p2, v.payload = .plain p1 p2 → 3 < d + v.kind / REB64 →
      Quotify_Core sig heap v d
        = some (heap ++
              [{ kind := v.kind % REB64, extra := v.extra, payload := v.payload }],
            { kind := sig.quoted,
              extra := if sig.bindable (v.kind % REB64) then v.extra else 0,
              payload := .quotedPay heap.length (d + v.kind / REB64) })) ∧
    (∀ idx dep, v.payload = .quotedPay idx dep →
      Quotify_Core sig heap v d
        = some (heap, { v with payload := .quotedPay idx (dep + d) })) := by
  obtain ⟨hq0, hqm, hm64⟩ := hsig
  refine ⟨?_, ?_, ?_⟩
  · intro p1 p2 hp htot
    have hkq : v.kind ≠ sig.quoted := by
      simp only [wfCell, hp] at hv
      simp only [Bool.and_eq_true, decide_eq_true_eq] at hv
      intro h
      exact hv.1.1.2 (by rw [h, Nat.mod_eq_of_lt (lt_of_lt_of_le hqm hm64)])
    simp only [Quotify_Core, if_neg hkq, if_pos htot]
  · intro p1 p2 hp htot
    have hkq : v.kind ≠ sig.quoted := by
      simp only [wfCell, hp] at hv
      simp only [Bool.and_eq_true, decide_eq_true_eq] at hv
      intro h
      exact hv.1.1.2 (by rw [h, Nat.mod_eq_of_lt (lt_of_lt_of_le hqm hm64)])
    simp only [Quotify_Core, if_neg hkq, if_neg (not_le.mpr htot), hp]
  · intro idx dep hp
    simp only [wfCell, hp] at hv
    simp only [Bool.and_eq_true, decide_eq_true_eq] at hv
    have hkq : v.kind = sig.quoted := hv.1.1
    have hdep : 3 < dep := hv.1.2
    simp only [Quotify_Core, if_pos hkq, hp, if_pos hdep]

/-- Witness for `Quotify_allocation_boundary`: the concrete numbering and a
concrete word-like cell at base kind 5, quoted by 2 (in-tag) and by 7 (side
array), plus a concrete deep cell bumped in place. -/
theorem Quotify_allocation_boundary_witness :
    Quotify_Core demoSig [] { kind := 5, extra := 3, payload := .plain 8 9 } 2
        = some ([], { kind := 5 + 64 * 2, extra := 3, payload := .plain 8 9 })
      ∧ Quotify_Core demoSig [] { kind := 5, extra := 3, payload := .plain 8 9 } 7
        = some ([{ kind := 5, extra := 3, payload := .plain 8 9 }],
            { kind := 52, extra := 3, payload := .quotedPay 0 7 })
      ∧ Quotify_Core demoSig [{ kind := 5, extra := 3, payload := .plain 8 9 }]
            { kind := 52, extra := 3, payload := .quotedPay 0 7 } 2
        = some ([{ kind := 5, extra := 3, payload := .plain 8 9 }],
            { kind := 52, extra := 3, payload := .quotedPay 0 9 }) := by
  have h1 := Quotify_allocation_boundary demoSig []
      { kind := 5, extra := 3, payload := .plain 8 9 } 2 (by decide) (by decide)
  have h2 := Quotify_allocation_boundary demoSig []
      { kind := 5, extra := 3, payload := .plain 8 9 } 7 (by decide) (by decide)
  have h3 := Quotify_allocation_boundary demoSig
      [{ kind := 5, extra := 3, payload := .plain 8 9 }]
      { kind := 52, extra := 3, payload := .quotedPay 0 7 } 2 (by decide) (by decide)
  refine ⟨?_, ?_, ?_⟩
  · exact h1.1 8 9 rfl (by decide)
  · exact h2.2.1 8 9 rfl (by decide)
  · exact h3.2.2 0 7 rfl

end Quoting

namespace Ctx

/-- A key/variable sequence is all-hidden exactly when it has no visible
slots. -/
theorem all_hidden_iff_visibles_nil (l : List Slot) :
    (l.all fun s => s.hidden) = true ↔ visibles l = [] := by
  simp [visibles, List.all_eq_true, List.filter_eq_nil_iff]

/-- `cmpVal` is reflexive (compares equal values as equal). -/
theorem cmpVal_self (v : Val) : cmpVal v v = 0 := by
  cases v <;> simp [cmpVal]

/-- The `Equal_Context` walk succeeds exactly when the visible slots of the
two sides match up pointwise (same length, same canonical names, values
comparing equal): hidden slots are skipped on whichever side has them. -/
theorem eqLoop_iff_visibles (cmp : Val → Val → Int) (l1 l2 : List Slot) :
    eqLoop cmp l1 l2 = true ↔
      List.Forall₂ (fun a b => a.canon = b.canon ∧ cmp a.val b.val = 0)
        (visibles l1) (visibles l2) := by
  induction l1, l2 using eqLoop.induct cmp with
  | case1 l2 =>
      rw [eqLoop, all_hidden_iff_visibles_nil]
      simp [visibles, List.forall₂_nil_left_iff]
  | case2 l1 hne =>
      obtain ⟨s, t, rfl⟩ := List.exists_cons_of_ne_nil (fun h => hne h)
      rw [eqLoop]
      · rw [all_hidden_iff_visibles_nil]
        simp [visibles, List.forall₂_nil_right_iff]
      · exact hne
  | case3 s1 t1 s2 t2 h1 ih =>
      rw [eqLoop]
      simp only [h1, if_true]
      rw [ih]
      simp [visibles, h1]
  | case4 s1 t1 s2 t2 h1 h2 ih =>
      rw [eqLoop]
      rw [Bool.not_eq_true] at h1
      simp only [h1, Bool.false_eq_true, if_false, h2, if_true]
      rw [ih]
      simp [visibles, h1, h2]
  | case5 s1 t1 s2 t2 h1 h2 hc =>
      rw [eqLoop]
      rw [Bool.not_eq_true] at h1 h2
      simp only [h1, h2, Bool.false_eq_true, if_false, ne_eq, hc,
        not_false_eq_true, if_true]
      simp [visibles, h1, h2, List.forall₂_cons, hc]
  | case6 s1 t1 s2 t2 h1 h2 hc hv =>
      rw [eqLoop]
      rw [Bool.not_eq_true] at h1 h2
      rw [not_not] at hc
      simp only [h1, h2, Bool.false_eq_true, if_false, ne_eq, hc,
        not_true_eq_false, hv, if_true]
      simp [visibles, h1, h2, List.forall₂_cons, hv]
  | case7 s1 t1 s2 t2 h1 h2 hc hv ih =>
      rw [eqLoop]
      rw [Bool.not_eq_true] at h1 h2
      rw [not_not] at hc
      rw [not_not] at hv
      simp only [h1, h2, Bool.false_eq_true, if_false, ne_eq, hc,
        not_true_eq_false, hv, not_false_eq_true]
      rw [ih]
      simp [visibles, h1, h2, List.forall₂_cons, hc, hv]

/-- Claim C3: context equality is positional and hidden-skipping.  Different
sub-kinds are never equal; the same backing varlist is trivially equal;
otherwise equality holds exactly when the visible key/value pairs of the two
sides line up pointwise by index (case-insensitively equal canonical names and
values comparing equal), hidden slots being skipped on whichever side has
them.  In particular `make object! [a: 1 b: 2]` is not equal to
`make object! [b: 1 a: 2]`, and an object is equal to a copy of itself
(same slots behind a fresh varlist identity). -/
theorem Equal_Context_positional :
    (∀ (cmp : Val → Val → Int) (c1 c2 : Context), c1.kind ≠ c2.kind →
        Equal_Context cmp c1 c2 = false) ∧
    (∀ (cmp : Val → Val → Int) (c1 c2 : Context), c1.kind = c2.kind →
        c1.id = c2.id → Equal_Context cmp c1 c2 = true) ∧
    (∀ (cmp : Val → Val → Int) (c1 c2 : Context), c1.kind = c2.kind →
        c1.id ≠ c2.id →
        (Equal_Context cmp c1 c2 = true ↔
          List.Forall₂ (fun a b => a.canon = b.canon ∧ cmp a.val b.val = 0)
            (visibles c1.slots) (visibles c2.slots))) ∧
    Equal_Context cmpVal objAB objBA = false ∧
    (∀ (c : Context) (newId : Nat),
        Equal_Context cmpVal { kind := c.kind, id := newId, slots := c.slots } c
          = true) := by
  have hwalk : ∀ (cmp : Val → Val → Int) (c1 c2 : Context), c1.kind = c2.kind →
      c1.id ≠ c2.id →
      (Equal_Context cmp c1 c2 = true ↔
        List.Forall₂ (fun a b => a.canon = b.canon ∧ cmp a.val b.val = 0)
          (visibles c1.slots) (visibles c2.slots)) := by
    intro cmp c1 c2 hk hid
    rw [Equal_Context, if_neg (by simp [hk]), if_neg hid]
    exact eqLoop_iff_visibles cmp c1.slots c2.slots
  refine ⟨?_, ?_, hwalk, ?_, ?_⟩
  · intro cmp c1 c2 hk
    rw [Equal_Context, if_pos hk]
  · intro cmp c1 c2 hk hid
    rw [Equal_Context, if_neg (by simp [hk]), if_pos hid]
  · have h := hwalk cmpVal objAB objBA rfl (by simp [objAB, objBA])
    rw [Bool.eq_false_iff]
    intro htrue
    have hf := h.mp htrue
    simp [objAB, objBA, visibles, List.forall₂_cons] at hf
  · intro c newId
    by_cases hid : newId = c.id
    · rw [Equal_Context, if_neg (by simp), if_pos hid]
    · rw [(hwalk cmpVal { kind := c.kind, id := newId, slots := c.slots } c
        rfl hid)]
      rw [List.forall₂_same]
      intro a _
      exact ⟨rfl, cmpVal_self a.val⟩

/-- The pairs of `objAB` with the hidden `self` slot moved to the end: its
visible portion is unchanged, its hidden layout is not. -/
def objABShuffled : Context :=
  { kind := REB_OBJECT, id := 5,
    slots := [⟨1, false, false, .vint 1⟩,
              ⟨2, false, false, .vint 2⟩,
              ⟨0, true, false, .vint 0⟩] }

/-- Witness for `Equal_Context_positional`: concrete contexts discharging each
hypothesis — an OBJECT! against an ERROR! over the same pairs, the same
varlist seen through two values, two objects whose hidden slots sit at
different indices but whose visible portions match (equal, via the walk
characterization), the ordering example, and a copy. -/
theorem Equal_Context_positional_witness :
    Equal_Context cmpVal objAB { objAB with kind := REB_ERROR } = false ∧
    Equal_Context cmpVal objAB { objAB with slots := [] } = true ∧
    Equal_Context cmpVal objABShuffled objAB = true ∧
    Equal_Context cmpVal objAB objBA = false ∧
    Equal_Context cmpVal { kind := objAB.kind, id := 9, slots := objAB.slots }
      objAB = true := by
  refine ⟨?_, ?_, ?_, Equal_Context_positional.2.2.2.1, ?_⟩
  · exact Equal_Context_positional.1 cmpVal _ _ (by decide)
  · exact Equal_Context_positional.2.1 cmpVal _ _ rfl rfl
  · refine (Equal_Context_positional.2.2.1 cmpVal objABShuffled objAB rfl
      (by decide)).mpr ?_
    simp [objABShuffled, objAB, visibles, List.forall₂_cons, cmpVal]
  · exact Equal_Context_positional.2.2.2.2 objAB 9

/-- Claim C7: the APPEND arm of the context generic-action dispatch.  An
absent or BLANK! argument is a no-op returning the context unchanged even on
a read-only context (the no-op check precedes the read-only check); any other
argument on a read-only context fails with the read-only error; and on a
writable context whose sub-kind is neither OBJECT! nor MODULE! the action
fails as illegal. -/
theorem ctxAppend_guard_order :
    (∀ (ro : Bool) (v : Context),
        ctxAppendAction ro v .nullish = .ok v ∧
        ctxAppendAction ro v .blank = .ok v) ∧
    (∀ (v : Context) (arg : AppendArg), arg ≠ .nullish → arg ≠ .blank →
        ctxAppendAction true v arg = .error .readOnly) ∧
    (∀ (v : Context) (arg : AppendArg), arg ≠ .nullish → arg ≠ .blank →
        v.kind ≠ REB_OBJECT → v.kind ≠ REB_MODULE →
        ctxAppendAction false v arg = .error .illegalAction) := by
  refine ⟨?_, ?_, ?_⟩
  · intro ro v
    constructor
    · rw [ctxAppendAction, if_pos (Or.inl rfl)]
    · rw [ctxAppendAction, if_pos (Or.inr rfl)]
  · intro v arg h1 h2
    rw [ctxAppendAction, if_neg (by simp [h1, h2]), if_pos rfl]
  · intro v arg h1 h2 ho hm
    rw [ctxAppendAction, if_neg (by simp [h1, h2]),
      if_neg (by simp), if_pos (by simp [ho, hm])]

/-- Witness for `ctxAppend_guard_order`: a read-only object appended with an
absent and a BLANK! argument (no-ops), with a word (read-only error), and an
ERROR! context appended with a word (illegal action). -/
theorem ctxAppend_guard_order_witness :
    ctxAppendAction true objAB .nullish = .ok objAB ∧
    ctxAppendAction true objAB .blank = .ok objAB ∧
    ctxAppendAction true objAB (.word 3) = .error .readOnly ∧
    ctxAppendAction false { objAB with kind := REB_ERROR } (.word 3)
      = .error .illegalAction := by
  refine ⟨(ctxAppend_guard_order.1 true objAB).1,
    (ctxAppend_guard_order.1 true objAB).2, ?_, ?_⟩
  · exact ctxAppend_guard_order.2.1 objAB (.word 3) (by decide) (by decide)
  · exact ctxAppend_guard_order.2.2 { objAB with kind := REB_ERROR } (.word 3)
      (by decide) (by decide) (by decide) (by decide)

end Ctx

namespace GobExt

/-- Unfolding of one traversal step: with fuel left, `Map_Gob_Inner` performs
exactly one spec-level descent step, or stops if none applies. -/
theorem Map_Gob_Inner_succ (fuel : Nat) (g : Gob) (p : Int × Int) :
    Map_Gob_Inner (fuel + 1) g p =
      match descend g p with
      | none => (g, p)
      | some s => Map_Gob_Inner fuel s.1 s.2 := by
  cases hp : g.pane with
  | none => simp [Map_Gob_Inner, descend, hp]
  | some children =>
      cases hc : findChildRev p children with
      | none => simp [Map_Gob_Inner, descend, hp, hc]
      | some c => simp [Map_Gob_Inner, descend, hp, hc]

/-- Every node of the unit-box chain sits at offset (0,0) with size (1,1). -/
theorem chainGob_offset_size (k : Nat) :
    (chainGob k).offset = (0, 0) ∧ (chainGob k).size = (1, 1) := by
  cases k <;> simp [chainGob, Gob.offset, Gob.size]

/-- Descending into the unit-box chain from local point (0,0) consumes the
guard one level per step: with `fuel` steps of guard, traversal starting
`fuel + n` levels up stops at level `n`. -/
theorem Map_Gob_Inner_chain (fuel n : Nat) :
    Map_Gob_Inner fuel (chainGob (fuel + n)) (0, 0) = (chainGob n, (0, 0)) := by
  induction fuel generalizing n with
  | zero => simp [Map_Gob_Inner]
  | succ f ih =>
      have hstep : chainGob (f + 1 + n) =
          .mk (0, 0) (1, 1) (some [chainGob (f + n)]) := by
        rw [show f + 1 + n = (f + n) + 1 from by omega, chainGob]
      have hbox : inBox (0, 0) (chainGob (f + n)) = true := by
        obtain ⟨ho, hs⟩ := chainGob_offset_size (f + n)
        simp [inBox, ho, hs]
      have hfind : findChildRev (0, 0) [chainGob (f + n)]
          = some (chainGob (f + n)) := by
        have hrev : ([chainGob (f + n)] : List Gob).reverse
            = [chainGob (f + n)] := rfl
        rw [findChildRev, hrev]
        exact List.find?_cons_of_pos _ hbox
      rw [hstep, Map_Gob_Inner]
      simp only [Gob.pane, hfind]
      obtain ⟨ho, _⟩ := chainGob_offset_size (f + n)
      rw [ho]
      simpa using ih n

/-- Claim C5: GOB hit-testing.  The result of `Map_Gob_Inner` with any guard
is reached by some number `k ≤ guard` of valid spec-level descent steps
(each picking the first back-to-front child whose box contains the point and
subtracting its offset), and whenever the guard was not exhausted the
traversal stopped because no further descent applies (no pane or no matching
child) — so the returned gob is the deepest match and the point is the
residual local point.  Exhausting the guard is not an error: on a unit-box
chain deeper than 1000, the native's forward mapping simply stops after 1000
descents.  On a parent with two non-overlapping children, a point inside the
first child resolves to it with the offset subtracted, and a point in neither
child resolves to the parent with the point unchanged. -/
theorem Map_Gob_Inner_hit_testing :
    (∀ (fuel : Nat) (g : Gob) (p : Int × Int),
        ∃ k, k ≤ fuel ∧
          descendIter k (g, p) = some (Map_Gob_Inner fuel g p) ∧
          (k < fuel →
            descend (Map_Gob_Inner fuel g p).1 (Map_Gob_Inner fuel g p).2
              = none)) ∧
    (∀ n : Nat, map_gob_offset_forward (chainGob (1000 + n)) (0, 0)
        = (chainGob n, (0, 0))) ∧
    map_gob_offset_forward twoKids (2, 5) = (kid1, (1, 2)) ∧
    map_gob_offset_forward twoKids (9, 9) = (twoKids, (9, 9)) := by
  refine ⟨?_, ?_, rfl, rfl⟩
  · intro fuel
    induction fuel with
    | zero =>
        intro g p
        exact ⟨0, Nat.le_refl 0, rfl, by omega⟩
    | succ f ih =>
        intro g p
        rw [Map_Gob_Inner_succ]
        cases hd : descend g p with
        | none =>
            refine ⟨0, Nat.zero_le _, rfl, fun _ => hd⟩
        | some s =>
            obtain ⟨k, hk, hiter, hlast⟩ := ih s.1 s.2
            refine ⟨k + 1, by omega, ?_, fun hlt => ?_⟩
            · rw [descendIter]
              simp only [hd]
              simpa using hiter
            · exact hlast (by omega)
  · intro n
    exact Map_Gob_Inner_chain 1000 n

/-- Witness for `Map_Gob_Inner_hit_testing`: its universally quantified parts
applied at concrete inputs — a 1010-deep chain stopped by the 1000-step
guard, and the two-children point lookup. -/
theorem Map_Gob_Inner_hit_testing_witness :
    map_gob_offset_forward (chainGob 1010) (0, 0) = (chainGob 10, (0, 0)) ∧
    map_gob_offset_forward twoKids (2, 5) = (kid1, (1, 2)) :=
  ⟨Map_Gob_Inner_hit_testing.2.1 10, Map_Gob_Inner_hit_testing.2.2.1⟩

/-- Claim C6: the map-event coordinate rewrite quirk.  For an event carrying
a gob and the position-present flag, the gob is re-resolved through the
hit-testing traversal and the resolved X coordinate is written into both the
X and the Y output fields (the resolved Y is discarded); events without a gob
or without the flag are returned unchanged.  The concrete instance shows an
event resolving to residual point (1,2) coming back with x = 1 and y = 1. -/
theorem map_event_xy_quirk :
    (∀ (e : Event) (g : Gob), e.gob = some g → e.hasXY = true →
        map_event e =
          { gob := some (Map_Gob_Inner 1000 g (e.x, e.y)).1,
            hasXY := true,
            x := (Map_Gob_Inner 1000 g (e.x, e.y)).2.1,
            y := (Map_Gob_Inner 1000 g (e.x, e.y)).2.1 }) ∧
    (∀ e : Event, e.gob = none → map_event e = e) ∧
    (∀ e : Event, e.hasXY = false → map_event e = e) ∧
    map_event { gob := some twoKids, hasXY := true, x := 2, y := 5 }
      = { gob := some kid1, hasXY := true, x := 1, y := 1 } := by
  refine ⟨?_, ?_, ?_, rfl⟩
  · intro e g hg hxy
    rw [map_event, hg]
    simp [hxy, ROUND_TO_INT]
  · intro e hg
    rw [map_event, hg]
  · intro e hxy
    rw [map_event]
    cases hg : e.gob with
    | none => rfl
    | some g => simp [hxy]

/-- Witness for `map_event_xy_quirk`: its hypotheses discharged at concrete
events. -/
theorem map_event_xy_quirk_witness :
    map_event { gob := some twoKids, hasXY := true, x := 9, y := 9 }
        = { gob := some (Map_Gob_Inner 1000 twoKids ((9 : Int), (9 : Int))).1,
            hasXY := true,
            x := (Map_Gob_Inner 1000 twoKids ((9 : Int), (9 : Int))).2.1,
            y := (Map_Gob_Inner 1000 twoKids ((9 : Int), (9 : Int))).2.1 } ∧
    map_event { gob := none, hasXY := true, x := 3, y := 4 }
        = { gob := none, hasXY := true, x := 3, y := 4 } ∧
    map_event { gob := some twoKids, hasXY := false, x := 3, y := 4 }
        = { gob := some twoKids, hasXY := false, x := 3, y := 4 } := by
  refine ⟨?_, ?_, ?_⟩
  · exact map_event_xy_quirk.1
      { gob := some twoKids, hasXY := true, x := 9, y := 9 } twoKids rfl rfl
  · exact map_event_xy_quirk.2.1 { gob := none, hasXY := true, x := 3, y := 4 } rfl
  · exact map_event_xy_quirk.2.2.1
      { gob := some twoKids, hasXY := false, x := 3, y := 4 } rfl

end GobExt

namespace Crypt

/-- Serialized blocks occupy 16 bytes each. -/
theorem flattenBlocks_length (bs : List Block) :
    (flattenBlocks bs).length = 16 * bs.length := by
  induction bs with
  | nil => simp [flattenBlocks]
  | cons b rest ih =>
      simp [flattenBlocks, ih]
      ring

/-- CBC encryption is block-count preserving. -/
theorem cbcEncrypt_length (E : Block → Block) (iv : Block) (bs : List Block) :
    (cbcEncrypt E iv bs).length = bs.length := by
  induction bs generalizing iv with
  | nil => simp [cbcEncrypt]
  | cons b rest ih => simp [cbcEncrypt, ih]

/-- CBC decryption is block-count preserving. -/
theorem cbcDecrypt_length (D : Block → Block) (iv : Block) (bs : List Block) :
    (cbcDecrypt D iv bs).length = bs.length := by
  induction bs generalizing iv with
  | nil => simp [cbcDecrypt]
  | cons b rest ih => simp [cbcDecrypt, ih]

/-- Chunking yields one block per full 16 bytes. -/
theorem chunkBlocks_length (data : List Nat) :
    (chunkBlocks data).length = data.length / 16 := by
  simp [chunkBlocks]

/-- Claim C4: the result shape of `aes-stream`.  Zero-length data yields the
absent result, not an empty binary.  Non-empty data of length `len` yields a
binary of exactly `len` rounded up to the next multiple of 16 — the output of
CBC encryption or decryption (per the handle's mode) over the input
zero-padded up to that boundary — and the temporary padded copy condition
`len < pad_len` holds exactly when `len` is not already a multiple of 16. -/
theorem aes_stream_shape (E D : Block → Block) (ctx : AES_CTX)
    (data : List Nat) :
    aes_stream E D ctx [] = none ∧
    (data ≠ [] →
      aes_stream E D ctx data
          = some (flattenBlocks
              ((if ctx.decrypt then cbcDecrypt D ctx.iv else cbcEncrypt E ctx.iv)
                (chunkBlocks
                  (data ++
                    List.replicate (padLenOf data.length - data.length) 0)))) ∧
        (∀ out, aes_stream E D ctx data = some out →
          out.length = 16 * ((data.length + 15) / 16)) ∧
        (data.length < padLenOf data.length ↔ ¬ (16 ∣ data.length))) := by
  constructor
  · rfl
  · intro hne
    have hlen0 : ¬ data.length = 0 := fun h => hne (List.length_eq_zero.mp h)
    have hle : data.length ≤ padLenOf data.length := by
      unfold padLenOf AES_BLOCKSIZE
      omega
    have hmain : aes_stream E D ctx data
        = some (flattenBlocks
            ((if ctx.decrypt then cbcDecrypt D ctx.iv else cbcEncrypt E ctx.iv)
              (chunkBlocks
                (data ++
                  List.replicate (padLenOf data.length - data.length) 0)))) := by
      rw [aes_stream]
      simp only [if_neg hlen0]
      by_cases hlt : data.length < padLenOf data.length
      · simp only [if_pos hlt]
        by_cases hd : ctx.decrypt <;> simp [hd]
      · have heq : padLenOf data.length = data.length :=
          le_antisymm (not_lt.mp hlt) hle
        simp only [if_neg hlt, heq, Nat.sub_self, List.replicate_zero,
          List.append_nil]
        by_cases hd : ctx.decrypt <;> simp [hd]
    refine ⟨hmain, ?_, ?_⟩
    · intro out hout
      rw [hmain] at hout
      have hbuf : (data ++
          List.replicate (padLenOf data.length - data.length) 0).length
            = padLenOf data.length := by
        simp [List.length_append, List.length_replicate]
        omega
      have hpad16 : 16 * (padLenOf data.length / 16)
          = 16 * ((data.length + 15) / 16) := by
        unfold padLenOf AES_BLOCKSIZE
        omega
      cases hout
      by_cases hd : ctx.decrypt <;>
        simp [hd, flattenBlocks_length, cbcDecrypt_length, cbcEncrypt_length,
          chunkBlocks_length, hbuf, hpad16]
    · unfold padLenOf AES_BLOCKSIZE
      omega

/-- A concrete AES context for evaluations (16-byte key, zero IV, encrypt). -/
def ctxDemo : AES_CTX :=
  { key := List.replicate 16 0, iv := blockOfList [], decrypt := false }

/-- Witness for `aes_stream_shape`: one-byte data through the identity block
primitive — the CBC input is the byte zero-padded to 16, and the padded-copy
condition agrees with non-divisibility. -/
theorem aes_stream_shape_witness :
    aes_stream id id ctxDemo [1]
        = some (flattenBlocks (cbcEncrypt id ctxDemo.iv
            (chunkBlocks ([1] ++ List.replicate (padLenOf 1 - 1) 0)))) ∧
    ((1 : Nat) < padLenOf 1 ↔ ¬ (16 ∣ (1 : Nat))) := by
  have h := (aes_stream_shape id id ctxDemo [1]).2 (by simp)
  exact ⟨h.1, h.2.2⟩

/-- Claim C9: with none of `/method`, `/secure`, `/key`, `/tcp`, `/hash`, the
CHECKSUM native falls through every dispatch branch to its final `else` and
returns the integer `Compute_CRC24` of the (possibly `/part`-truncated)
data — an undocumented default mode. -/
theorem checksum_default_crc24 (P : Prims) (data : List Nat) :
    checksum P data none false false none none none
        = .ok (.int (P.crc24 data)) ∧
    (∀ n, checksum P data (some n) false false none none none
        = .ok (.int (P.crc24 (data.take n)))) :=
  ⟨rfl, fun _ => rfl⟩

/-- Claim C10 counterexample: `aes-key` also fails on a key of invalid
length — here the empty key with a BLANK! IV fails naming length 0, although
the IV is not a binary shorter than 16 bytes.  So "fails only when a binary
initialization vector is strictly shorter than 16 bytes" is false as a
statement about the whole native. -/
theorem aes_key_fails_on_blank_iv :
    aes_key [] .blank false = .error (.badKeyLen 0) := rfl

/-- Claim C10 (amended): for keys of valid length (16 or 32 bytes), `aes-key`
fails exactly when a binary IV is strictly shorter than 16 bytes; a binary IV
of 16 bytes or longer is accepted with only its first 16 bytes used; a BLANK!
IV is replaced by 16 zero bytes. -/
theorem aes_key_iv_tolerance (key : List Nat) (iv : IvArg) (dec : Bool)
    (hkey : key.length = 16 ∨ key.length = 32) :
    (∀ b, iv = .binary b → b.length < 16 →
        aes_key key iv dec = .error .ivShort) ∧
    (∀ b, iv = .binary b → 16 ≤ b.length →
        aes_key key iv dec
          = .ok { key := key, iv := blockOfList (b.take 16), decrypt := dec }) ∧
    (iv = .blank →
        aes_key key iv dec
          = .ok { key := key, iv := blockOfList (List.replicate 16 0),
                  decrypt := dec }) := by
  have hok : ∀ iv16, aes_key_core key iv16 dec
      = .ok { key := key, iv := iv16, decrypt := dec } := by
    intro iv16
    rw [aes_key_core]
    rcases hkey with h | h <;> simp [h]
  refine ⟨?_, ?_, ?_⟩
  · intro b hb hlt
    subst hb
    rw [aes_key]
    simp [AES_IV_SIZE, hlt]
  · intro b hb hge
    subst hb
    rw [aes_key]
    rw [if_neg (by unfold AES_IV_SIZE; omega)]
    exact hok _
  · intro hb
    subst hb
    rw [aes_key]
    exact hok _

/-- Witness for `aes_key_iv_tolerance`: a 16-byte key with a 20-byte IV
(truncated), a 32-byte key with a BLANK! IV (zeroed), and a 16-byte key with
a 3-byte IV (rejected). -/
theorem aes_key_iv_tolerance_witness :
    aes_key (List.replicate 16 7) (.binary (List.replicate 20 9)) false
        = .ok { key := List.replicate 16 7,
                iv := blockOfList ((List.replicate 20 9).take 16),
                decrypt := false } ∧
    aes_key (List.replicate 32 7) .blank true
        = .ok { key := List.replicate 32 7,
                iv := blockOfList (List.replicate 16 0), decrypt := true } ∧
    aes_key (List.replicate 16 7) (.binary [1, 2, 3]) false
        = .error .ivShort := by
  refine ⟨?_, ?_, ?_⟩
  · exact (aes_key_iv_tolerance (List.replicate 16 7)
      (.binary (List.replicate 20 9)) false (Or.inl (by simp))).2.1 _ rfl
      (by simp)
  · exact (aes_key_iv_tolerance (List.replicate 32 7) .blank true
      (Or.inr (by simp))).2.2 rfl
  · exact (aes_key_iv_tolerance (List.replicate 16 7) (.binary [1, 2, 3]) false
      (Or.inl (by simp))).1 _ rfl (by simp)

end Crypt

namespace Png

/-- Claim C8: `identify-png?` is total and boolean.  For every inspect
routine and every input it returns `R_TRUE`/`R_FALSE` according to whether
header inspection succeeded — never a raised error — and with the
spec-modelled codec inspection it returns false (not a failure) on the empty
buffer and on a random buffer, and true on a well-formed PNG header. -/
theorem identify_png_q_total (inspect : List Nat → Option (Nat × Nat))
    (data : List Nat) :
    identify_png_q inspect data = .ok ((inspect data).isSome) ∧
    identify_png_q lodepng_inspect [] = .ok false ∧
    identify_png_q lodepng_inspect [1, 2, 3] = .ok false ∧
    identify_png_q lodepng_inspect pngDemo = .ok true := by
  refine ⟨?_, rfl, rfl, rfl⟩
  cases h : inspect data <;> simp [identify_png_q, h]

end Png
